import Mathlib

/-!
Verification of BeeRef's settings/utility behavior.

This file shallowly embeds the relevant parts of the BeeRef repository:
the recent-files list maintenance, the settings default/override
resolution, palette construction from a config dictionary
(`beeref/utils.py: create_palette_from_dict`), rounding to a base
(`round_to`), file-extension extraction from a Qt format string
(`get_file_extension_from_format`) and color-to-hex conversion
(`qcolor_to_hex`), and proves the documented properties about them.
-/

namespace BeeRef

/-! ### Recent files list

Modelled from the spec: the `BeeSettings.update_recent_files` /
`get_recent_files` methods live in `beeref/config/settings.py`, which is
not part of the excerpted sources (only their tests and callers are).
The spec describes the update as: remove any existing occurrence of the
path, prepend it, truncate to 10 entries; and the read as: optionally
filter the stored list down to the entries whose file exists on disk. -/

/-- Modelled from the spec: the fixed maximum size of the recent-files
list ("capped at a fixed maximum size (10)"). -/
def maxRecentFiles : Nat := 10

/-- Modelled from the spec: `BeeSettings.update_recent_files` (missing
from the excerpted sources): "remove any existing occurrence of the
path, prepend it, truncate to 10 entries". -/
def update_recent_files (files : List String) (p : String) : List String :=
  (p :: files.filter (fun q => q ≠ p)).take maxRecentFiles

/-- Modelled from the spec: `BeeSettings.get_recent_files` (missing from
the excerpted sources): returns the stored list, and with
`existing_only` it filters out the entries whose file does not exist on
disk.  Existence on disk is an oracle passed in as a predicate. -/
def get_recent_files (stored : List String) (existsOnDisk : String → Bool)
    (existing_only : Bool) : List String :=
  if existing_only then stored.filter existsOnDisk else stored

/-- Removing duplicates keeping the first occurrence of each element;
used to state what the recent-files fold computes. -/
def dedupKeepFirst : List String → List String
  | [] => []
  | x :: xs => x :: (dedupKeepFirst xs).filter (fun q => q ≠ x)

/-- The recent-files list obtained by replaying a sequence of updates
from the empty list. -/
def replayRecent (ps : List String) : List String :=
  ps.foldl update_recent_files []

/-! ### Settings store

Modelled from the spec: `BeeSettings` lives in
`beeref/config/settings.py`, which is not part of the excerpted sources.
The spec describes a key/value mapping from string keys to typed values,
each declared key having a static default and a legal-value set, with
the resolution rule: look up the overridden value; if absent or it fails
to cast to the declared type, return the static default. -/

/-- A stored settings value: the tests store both strings and integers. -/
inductive SettingsValue
  | str (s : String)
  | int (n : Int)
  deriving DecidableEq, Repr

/-- The declared type of a settings key: an enumerated string type with
its legal-value set, or an integer type. -/
inductive KeyType
  | strEnum (legal : List String)
  | intType
  deriving DecidableEq, Repr

/-- Value of a decimal digit character, if it is one. -/
def digitVal (c : Char) : Option Nat :=
  if '0' ≤ c ∧ c ≤ '9' then some (c.toNat - 48) else none

/-- Parse a nonempty run of decimal digits. -/
def parseNatChars : List Char → Option Nat
  | [] => none
  | l => l.foldl (fun acc c => acc.bind fun n => (digitVal c).map fun d => 10 * n + d)
      (some 0)

/-- Modelled from the spec: Python `int(s)` as used when casting a stored
string to an integer key ("value must be castable to its declared
type"): an optional sign followed by decimal digits, else failure. -/
def parseIntStr (s : String) : Option Int :=
  match s.data with
  | '-' :: rest => (parseNatChars rest).map fun n => -(n : Int)
  | '+' :: rest => (parseNatChars rest).map fun n => (n : Int)
  | l => (parseNatChars l).map fun n => (n : Int)

/-- Modelled from the spec: casting a stored value to a key's declared
type.  A string key with an enumerated legal-value set accepts exactly
the enumerated strings; an integer key accepts integers and strings that
parse as integers. -/
def castValue : KeyType → SettingsValue → Option SettingsValue
  | .strEnum legal, .str s => if s ∈ legal then some (.str s) else none
  | .strEnum _, .int _ => none
  | .intType, .int n => some (.int n)
  | .intType, .str s => (parseIntStr s).map .int

/-- The settings store: an association list from keys to stored values,
first binding wins. -/
abbrev Store : Type := List (String × SettingsValue)

/-- Look up the stored (overridden) value of a key. -/
def lookupVal : Store → String → Option SettingsValue
  | [], _ => none
  | (k2, v) :: rest, k => if k2 = k then some v else lookupVal rest k

/-- `QSettings.setValue`: overwrite the binding of a key. -/
def setValue (st : Store) (k : String) (v : SettingsValue) : Store :=
  (k, v) :: (st.filter fun kv => kv.1 ≠ k)

/-- `QSettings.contains`: whether the key has a stored value. -/
def containsKey (st : Store) (k : String) : Bool :=
  (lookupVal st k).isSome

/-- The statically declared defaults of the application: each declared
key maps to its declared type and default value.  The two keys exercised
by the tests, with the defaults the tests assert. -/
def beerefDefaults : String → Option (KeyType × SettingsValue) := fun k =>
  if k = "Items/image_storage_format" then
    some (.strEnum ["best", "png", "jpg"], .str "best")
  else if k = "Items/arrange_gap" then some (.intType, .int 0)
  else none

/-- Modelled from the spec: `BeeSettings.valueOrDefault` (missing from
the excerpted sources): "look up overridden value; if absent or fails to
cast to the declared type, return the static default". -/
def valueOrDefault (defaults : String → Option (KeyType × SettingsValue))
    (st : Store) (k : String) : Option SettingsValue :=
  match defaults k with
  | none => none
  | some (t, d) =>
    match lookupVal st k with
    | none => some d
    | some v =>
      match castValue t v with
      | some c => some c
      | none => some d

/-- Modelled from the spec: `BeeSettings.restore_defaults` (missing from
the excerpted sources): remove exactly the stored values of the keys in
the declared-default namespace. -/
def restore_defaults (defaults : String → Option (KeyType × SettingsValue))
    (st : Store) : Store :=
  st.filter fun kv => (defaults kv.1).isNone

/-! ### Palette construction (`beeref/utils.py: create_palette_from_dict`) -/

/-- An `(r, g, b)` color tuple, as in the config dictionaries passed to
`create_palette_from_dict`. -/
abbrev Color : Type := Nat × Nat × Nat

/-- Python `str.split(':')` on the character list of a string: splits at
every colon, keeping empty parts. -/
def splitOnColon : List Char → List (List Char)
  | [] => [[]]
  | c :: rest =>
    if c = ':' then [] :: splitOnColon rest
    else
      match splitOnColon rest with
      | [] => [[c]]
      | p :: ps => (c :: p) :: ps

/-- The member names of `QtGui.QPalette.ColorGroup` (PyQt6), i.e. the
group names for which `hasattr(QtGui.QPalette.ColorGroup, group)` is
true. -/
def knownColorGroups : List (List Char) :=
  ["Active".data, "Disabled".data, "Inactive".data, "NColorGroups".data,
    "Current".data, "All".data, "Normal".data]

/-- The member names of `QtGui.QPalette.ColorRole` (PyQt6), i.e. the
role names for which `getattr(QtGui.QPalette.ColorRole, role)`
succeeds. -/
def knownColorRoles : List (List Char) :=
  ["WindowText".data, "Button".data, "Light".data, "Midlight".data,
    "Dark".data, "Mid".data, "Text".data, "BrightText".data,
    "ButtonText".data, "Base".data, "Window".data, "Shadow".data,
    "Highlight".data, "HighlightedText".data, "Link".data,
    "LinkVisited".data, "AlternateBase".data, "NoRole".data,
    "ToolTipBase".data, "ToolTipText".data, "PlaceholderText".data,
    "Accent".data, "NColorRoles".data]

/-- A palette, modelled as the association list of explicitly set
`(group, role) ↦ color` entries, most recent first. -/
abbrev Palette : Type := List ((List Char × List Char) × Color)

/-- `QPalette.setColor`: record a color for a group/role pair. -/
def setColor (pal : Palette) (group role : List Char) (c : Color) : Palette :=
  ((group, role), c) :: pal

/-- The color recorded for a group/role pair, if any. -/
def getColor (pal : Palette) (group role : List Char) : Option Color :=
  (pal.find? fun e => e.1 = (group, role)).map fun e => e.2

/-- A Python exception raised by `create_palette_from_dict`:
`ValueError` from unpacking `key.split(':')` into two names, or
`AttributeError` from `getattr(QtGui.QPalette.ColorRole, role)` on an
unknown role. -/
inductive PyError
  | valueError
  | attributeError
  deriving DecidableEq, Repr

/-- The loop of `create_palette_from_dict`: for each `key, value` pair,
split the key on `:` into a group and a role (a different number of
parts raises `ValueError`); skip the entry when the group is not a
`ColorGroup` member; otherwise set the color (an unknown role raises
`AttributeError`), and when the group is `Active` also set the same
color for the `Inactive` group. -/
def paletteApply (pal : Palette) : List (String × Color) → Except PyError Palette
  | [] => .ok pal
  | (key, value) :: rest =>
    match splitOnColon key.data with
    | [group, role] =>
      if group ∈ knownColorGroups then
        if role ∈ knownColorRoles then
          let pal1 := setColor pal group role value
          let pal2 := if group = "Active".data
            then setColor pal1 "Inactive".data role value else pal1
          paletteApply pal2 rest
        else .error .attributeError
      else paletteApply pal rest
    | _ => .error .valueError

/-- `create_palette_from_dict` from `beeref/utils.py`: build a palette
from a config dictionary (an insertion-ordered list of key/color
pairs). -/
def create_palette_from_dict (conf : List (String × Color)) : Except PyError Palette :=
  paletteApply [] conf

/-- Whether an entry of the config dictionary has a well-formed
two-part key whose group is a known color group. -/
def entryKnownGroup (kv : String × Color) : Bool :=
  match splitOnColon kv.1.data with
  | [group, _] => group ∈ knownColorGroups
  | _ => false

/-- Whether an entry of the config dictionary is processable without an
exception: its key splits into exactly a group and a role, and when the
group is a known color group the role is a known color role. -/
def entryWellFormed (kv : String × Color) : Bool :=
  match splitOnColon kv.1.data with
  | [group, role] => group ∉ knownColorGroups ∨ role ∈ knownColorRoles
  | _ => false

/-! ### Rounding to a base (`beeref/utils.py: round_to`) -/

/-- Python's built-in `round` on exact (rational) numbers: round half to
even. -/
def pyRound (x : ℚ) : ℤ :=
  if x - ⌊x⌋ < 1 / 2 then ⌊x⌋
  else if 1 / 2 < x - ⌊x⌋ then ⌊x⌋ + 1
  else if ⌊x⌋ % 2 = 0 then ⌊x⌋ else ⌊x⌋ + 1

/-- `round_to` from `beeref/utils.py`: `base * round(number / base)`. -/
def round_to (number base : ℚ) : ℚ :=
  base * pyRound (number / base)

/-! ### File-extension extraction
(`beeref/utils.py: get_file_extension_from_format`) -/

/-- Python `str.isspace` on the ASCII whitespace characters recognised
by `str.split()`. -/
def pyIsSpace (c : Char) : Bool :=
  c = ' ' ∨ c = '\t' ∨ c = '\n' ∨ c = '\x0b' ∨ c = '\x0c' ∨ c = '\r'

/-- Python `str.split()` with no separator: split on runs of whitespace,
discarding empty parts.  `acc` holds the current word, reversed. -/
def pySplitWsAux (acc : List Char) : List Char → List (List Char)
  | [] => if acc.isEmpty then [] else [acc.reverse]
  | c :: rest =>
    if pyIsSpace c then
      if acc.isEmpty then pySplitWsAux [] rest
      else acc.reverse :: pySplitWsAux [] rest
    else pySplitWsAux (c :: acc) rest

/-- Python `str.split()` with no separator. -/
def pySplitWs (l : List Char) : List (List Char) :=
  pySplitWsAux [] l

/-- `str.removeprefix('*.')`: drop a leading `*.` if present. -/
def stripStarDot : List Char → List Char
  | '*' :: '.' :: rest => rest
  | l => l

/-- Split a character list at the first occurrence of the two-character
pattern `(` ` ` (an open paren followed by a space), returning the part
before and the part after the pattern. -/
def splitAtParenSpace : List Char → Option (List Char × List Char)
  | [] => none
  | c :: rest =>
    if c = '(' ∧ rest.head? = some ' ' then some ([], rest.tail)
    else (splitAtParenSpace rest).map fun p => (c :: p.1, p.2)

/-- The capture group of Python's `re.match(r'.* \((.*)\)', s)` (for
newline-free `s`): the greedy leading `.*` selects the last ` (` that
still has a `)` after it, and the greedy inner `(.*)` then extends to
the last `)` of the string; the capture is the text between the two.
Computed on the reversed string: drop up to the last `)`, then cut at
the first following reversed pattern `( `. -/
def regexExtractGroup (s : List Char) : Option (List Char) :=
  match s.reverse.dropWhile (fun c => c ≠ ')') with
  | [] => none
  | _ :: r2 => (splitAtParenSpace r2).map fun p => p.1.reverse

/-- `get_file_extension_from_format` from `beeref/utils.py`: extract the
regex capture group (`None` propagates as a Python `AttributeError`,
modelled as `none`), split it on whitespace, take the first part
(Python raises `IndexError` on an empty split, modelled as `none`) and
remove a leading `*.`. -/
def get_file_extension_from_format (s : String) : Option String :=
  match regexExtractGroup s.data with
  | none => none
  | some extensions =>
    match pySplitWs extensions with
    | [] => none
    | ext :: _ => some (String.mk (stripStarDot ext))

/-! ### Color to hex (`beeref/utils.py: qcolor_to_hex`) -/

/-- A `QColor` with 8-bit red, green, blue and alpha components. -/
structure QColor where
  r : Nat
  g : Nat
  b : Nat
  a : Nat
  deriving DecidableEq, Repr

/-- The lowercase hex digit for a value below 16. -/
def hexDigitChar (n : Nat) : Char :=
  if n < 10 then Char.ofNat (48 + n) else Char.ofNat (87 + n)

/-- A byte as two lowercase, zero-padded hex digits. -/
def byteToHex (n : Nat) : List Char :=
  [hexDigitChar (n / 16 % 16), hexDigitChar (n % 16)]

/-- `QColor.name()`: the `#rrggbb` form, lowercase, zero-padded. -/
def qcolorName (c : QColor) : List Char :=
  '#' :: (byteToHex c.r ++ byteToHex c.g ++ byteToHex c.b)

/-- Hex digits of `n`, most significant first, with `fuel ≥ n` ensuring
structural termination. -/
def natToHexFuel : Nat → Nat → List Char
  | 0, n => [hexDigitChar (n % 16)]
  | fuel + 1, n =>
    if n < 16 then [hexDigitChar n]
    else natToHexFuel fuel (n / 16) ++ [hexDigitChar (n % 16)]

/-- Python `hex(n)` without its `0x`: lowercase hex digits of `n`
without zero padding. -/
def natToHexChars (n : Nat) : List Char :=
  natToHexFuel n n

/-- `qcolor_to_hex` from `beeref/utils.py`: the color's `#rrggbb` name
when alpha is 255, otherwise the name immediately followed by the alpha
in unpadded lowercase hex. -/
def qcolor_to_hex (c : QColor) : List Char :=
  if c.a = 255 then qcolorName c
  else qcolorName c ++ natToHexChars c.a

/-! ### Helper lemmas -/

theorem dedupKeepFirst_nodup (l : List String) : (dedupKeepFirst l).Nodup := by
  induction l with
  | nil => simp [dedupKeepFirst]
  | cons x xs ih =>
    simp only [dedupKeepFirst, List.nodup_cons]
    refine ⟨fun hmem => ?_, ih.filter _⟩
    have := (List.mem_filter.mp hmem).2
    simp at this

theorem take_filter_take (p : String) :
    ∀ (D : List String), D.Nodup → ∀ n,
      ((D.take (n + 1)).filter (fun q => q ≠ p)).take n
        = (D.filter (fun q => q ≠ p)).take n := by
  intro D
  induction D with
  | nil => intro _ n; simp
  | cons d D ih =>
    intro hnd n
    rcases List.nodup_cons.mp hnd with ⟨hd, hD⟩
    by_cases hdp : d = p
    · subst hdp
      have hfil : ∀ (L : List String), (∀ x ∈ L, x ∈ D) →
          L.filter (fun q => q ≠ d) = L := by
        intro L hL
        refine List.filter_eq_self.mpr fun x hx => ?_
        simp only [ne_eq, decide_not, Bool.not_eq_eq_eq_not, Bool.not_true,
          decide_eq_false_iff_not]
        intro hxd
        exact hd (hxd ▸ hL x hx)
      have h1 : ((d :: D).take (n + 1)).filter (fun q => q ≠ d) = D.take n := by
        rw [List.take_succ_cons, List.filter_cons_of_neg (by simp)]
        exact hfil _ fun x hx => (List.take_sublist n D).subset hx
      have h2 : (d :: D).filter (fun q => q ≠ d) = D := by
        rw [List.filter_cons_of_neg (by simp)]
        exact hfil _ fun x hx => hx
      rw [h1, h2, List.take_take, Nat.min_self]
    · cases n with
      | zero => simp
      | succ m =>
        have hstep : ∀ (L : List String),
            (d :: L).filter (fun q => q ≠ p) = d :: L.filter (fun q => q ≠ p) := by
          intro L
          exact List.filter_cons_of_pos (by simpa using hdp)
        rw [List.take_succ_cons, hstep, hstep, List.take_succ_cons,
          List.take_succ_cons, ih hD m]

theorem replayRecent_eq (ps : List String) :
    replayRecent ps = (dedupKeepFirst ps.reverse).take maxRecentFiles := by
  induction ps using List.reverseRecOn with
  | nil => simp [replayRecent, dedupKeepFirst]
  | append_singleton qs p ih =>
    have hfold : replayRecent (qs ++ [p]) = update_recent_files (replayRecent qs) p := by
      simp [replayRecent, List.foldl_append]
    rw [hfold, ih]
    have hrev : (qs ++ [p]).reverse = p :: qs.reverse := by simp
    rw [hrev]
    show (p :: ((dedupKeepFirst qs.reverse).take 10).filter (fun q => q ≠ p)).take 10
        = (p :: (dedupKeepFirst qs.reverse).filter (fun q => q ≠ p)).take 10
    rw [List.take_succ_cons, List.take_succ_cons,
      take_filter_take p _ (dedupKeepFirst_nodup _) 9]

theorem splitOnColon_ne_nil (l : List Char) : splitOnColon l ≠ [] := by
  cases l with
  | nil => simp [splitOnColon]
  | cons c rest =>
    rw [splitOnColon]
    split
    · simp
    · rcases h : splitOnColon rest with _ | ⟨p, ps⟩ <;> simp [h]

theorem splitOnColon_append (g r : List Char) (hg : ':' ∉ g) :
    splitOnColon (g ++ ':' :: r) = g :: splitOnColon r := by
  induction g with
  | nil => simp [splitOnColon]
  | cons c g ih =>
    have hc : c ≠ ':' := fun h => hg (h ▸ List.mem_cons_self c g)
    have hg2 : ':' ∉ g := fun h => hg (List.mem_cons_of_mem c h)
    rw [List.cons_append, splitOnColon, if_neg hc, ih hg2]

theorem splitOnColon_no_colon (r : List Char) (hr : ':' ∉ r) :
    splitOnColon r = [r] := by
  induction r with
  | nil => simp [splitOnColon]
  | cons c r ih =>
    have hc : c ≠ ':' := fun h => hr (h ▸ List.mem_cons_self c r)
    have hr2 : ':' ∉ r := fun h => hr (List.mem_cons_of_mem c h)
    rw [splitOnColon, if_neg hc, ih hr2]

theorem splitOnColon_singleton (l : List Char) :
    ∀ x, splitOnColon l = [x] → l = x := by
  induction l with
  | nil =>
    intro x h
    simp [splitOnColon] at h
    exact h.symm
  | cons c rest ih =>
    intro x h
    rw [splitOnColon] at h
    by_cases hc : c = ':'
    · rw [if_pos hc] at h
      obtain ⟨h1, h2⟩ := List.cons_eq_cons.mp h
      exact absurd h2 (splitOnColon_ne_nil rest)
    · rw [if_neg hc] at h
      rcases hrest : splitOnColon rest with _ | ⟨p, ps⟩
      · exact absurd hrest (splitOnColon_ne_nil rest)
      · rw [hrest] at h
        obtain ⟨h1, h2⟩ := List.cons_eq_cons.mp h
        have : rest = p := ih p (by rw [hrest, h2])
        rw [← h1, this]

theorem splitOnColon_pair (l : List Char) :
    ∀ g r, splitOnColon l = [g, r] → l = g ++ ':' :: r := by
  induction l with
  | nil => intro g r h; simp [splitOnColon] at h
  | cons c rest ih =>
    intro g r h
    rw [splitOnColon] at h
    by_cases hc : c = ':'
    · rw [if_pos hc] at h
      obtain ⟨h1, h2⟩ := List.cons_eq_cons.mp h
      have : rest = r := splitOnColon_singleton rest r h2
      rw [← h1, this, hc]
      rfl
    · rw [if_neg hc] at h
      rcases hrest : splitOnColon rest with _ | ⟨p, ps⟩
      · exact absurd hrest (splitOnColon_ne_nil rest)
      · rw [hrest] at h
        obtain ⟨h1, h2⟩ := List.cons_eq_cons.mp h
        have : rest = p ++ ':' :: r := ih p r (by rw [hrest, h2])
        rw [← h1, this]
        rfl

theorem getColor_setColor_same (pal : Palette) (g r : List Char) (c : Color) :
    getColor (setColor pal g r c) g r = some c := by
  simp [getColor, setColor, List.find?_cons_of_pos]

theorem getColor_setColor_of_ne (pal : Palette) (g r g2 r2 : List Char)
    (c : Color) (h : (g, r) ≠ (g2, r2)) :
    getColor (setColor pal g r c) g2 r2 = getColor pal g2 r2 := by
  simp only [getColor, setColor]
  rw [List.find?_cons_of_neg]
  simp [h]

theorem paletteApply_cons_known (pal : Palette) (key : String) (value : Color)
    (rest : List (String × Color)) (g r : List Char)
    (hsp : splitOnColon key.data = [g, r]) (hg : g ∈ knownColorGroups)
    (hr : r ∈ knownColorRoles) :
    paletteApply pal ((key, value) :: rest)
      = paletteApply
          (if g = "Active".data
            then setColor (setColor pal g r value) "Inactive".data r value
            else setColor pal g r value) rest := by
  rw [paletteApply, hsp]
  simp [hg, hr]

theorem paletteApply_cons_unknown (pal : Palette) (key : String) (value : Color)
    (rest : List (String × Color)) (g r : List Char)
    (hsp : splitOnColon key.data = [g, r]) (hg : g ∉ knownColorGroups) :
    paletteApply pal ((key, value) :: rest) = paletteApply pal rest := by
  rw [paletteApply, hsp]
  simp [hg]

theorem paletteApply_cons_badrole (pal : Palette) (key : String) (value : Color)
    (rest : List (String × Color)) (g r : List Char)
    (hsp : splitOnColon key.data = [g, r]) (hg : g ∈ knownColorGroups)
    (hr : r ∉ knownColorRoles) :
    paletteApply pal ((key, value) :: rest) = .error .attributeError := by
  rw [paletteApply, hsp]
  simp [hg, hr]

theorem paletteApply_cons_badsplit (pal : Palette) (key : String) (value : Color)
    (rest : List (String × Color))
    (hsp : ∀ g r, splitOnColon key.data ≠ [g, r]) :
    paletteApply pal ((key, value) :: rest) = .error .valueError := by
  rw [paletteApply]
  rcases h : splitOnColon key.data with _ | ⟨g, _ | ⟨r, _ | ⟨x, xs⟩⟩⟩
  · rfl
  · rfl
  · exact absurd h (hsp g r)
  · rfl

theorem paletteApply_append (xs ys : List (String × Color)) :
    ∀ pal pal2, paletteApply pal (xs ++ ys) = .ok pal2 →
      ∃ p, paletteApply pal xs = .ok p ∧ paletteApply p ys = .ok pal2 := by
  induction xs with
  | nil => exact fun pal pal2 h => ⟨pal, rfl, h⟩
  | cons kv xs ih =>
    intro pal pal2 h
    obtain ⟨key, value⟩ := kv
    rw [List.cons_append] at h
    rcases hsp : splitOnColon key.data with _ | ⟨g, _ | ⟨r, _ | ⟨x, xs2⟩⟩⟩
    · exact absurd hsp (splitOnColon_ne_nil _)
    · rw [paletteApply_cons_badsplit _ _ _ _ (by rw [hsp]; intro g2 r2; simp)] at h
      simp at h
    · by_cases hg : g ∈ knownColorGroups
      · by_cases hr : r ∈ knownColorRoles
        · rw [paletteApply_cons_known _ _ _ _ _ _ hsp hg hr] at h
          obtain ⟨p, h1, h2⟩ := ih _ _ h
          exact ⟨p, by rw [paletteApply_cons_known _ _ _ _ _ _ hsp hg hr]; exact h1, h2⟩
        · rw [paletteApply_cons_badrole _ _ _ _ _ _ hsp hg hr] at h
          simp at h
      · rw [paletteApply_cons_unknown _ _ _ _ _ _ hsp hg] at h
        obtain ⟨p, h1, h2⟩ := ih _ _ h
        exact ⟨p, by rw [paletteApply_cons_unknown _ _ _ _ _ _ hsp hg]; exact h1, h2⟩
    · rw [paletteApply_cons_badsplit _ _ _ _ (by rw [hsp]; intro g2 r2; simp)] at h
      simp at h

theorem entryWellFormed_elim (kv : String × Color)
    (h : entryWellFormed kv = true) :
    ∃ g r, splitOnColon kv.1.data = [g, r]
      ∧ (g ∈ knownColorGroups → r ∈ knownColorRoles) := by
  rcases hsp : splitOnColon kv.1.data with _ | ⟨g, _ | ⟨r, _ | ⟨x, xs⟩⟩⟩ <;>
    rw [entryWellFormed, hsp] at h
  · simp at h
  · simp at h
  · simp only [decide_eq_true_eq] at h
    exact ⟨g, r, rfl, fun hg => h.resolve_left (not_not_intro hg)⟩
  · simp at h

theorem paletteApply_filter (conf : List (String × Color)) :
    ∀ pal, (∀ kv ∈ conf, entryWellFormed kv = true) →
      ∃ pal2, paletteApply pal conf = .ok pal2 ∧
        paletteApply pal (conf.filter entryKnownGroup) = .ok pal2 := by
  induction conf with
  | nil => exact fun pal _ => ⟨pal, rfl, rfl⟩
  | cons kv rest ih =>
    intro pal h
    obtain ⟨key, value⟩ := kv
    obtain ⟨g, r, hsp, himp⟩ := entryWellFormed_elim _ (h _ (List.mem_cons_self _ _))
    have hrest := fun kv hkv => h kv (List.mem_cons_of_mem _ hkv)
    by_cases hg : g ∈ knownColorGroups
    · have hr := himp hg
      have hfil : entryKnownGroup (key, value) = true := by
        rw [entryKnownGroup, hsp]
        simp [hg]
      obtain ⟨pal2, h1, h2⟩ := ih
        (if g = "Active".data
          then setColor (setColor pal g r value) "Inactive".data r value
          else setColor pal g r value) hrest
      refine ⟨pal2, ?_, ?_⟩
      · rw [paletteApply_cons_known _ _ _ _ _ _ hsp hg hr]
        exact h1
      · rw [List.filter_cons_of_pos hfil,
          paletteApply_cons_known _ _ _ _ _ _ hsp hg hr]
        exact h2
    · have hfil : entryKnownGroup (key, value) = false := by
        rw [entryKnownGroup, hsp]
        simp [hg]
      obtain ⟨pal2, h1, h2⟩ := ih pal hrest
      refine ⟨pal2, ?_, ?_⟩
      · rw [paletteApply_cons_unknown _ _ _ _ _ _ hsp hg]
        exact h1
      · rw [List.filter_cons_of_neg (by simp [hfil])]
        exact h2

theorem paletteApply_active_inactive (role : List Char) :
    ∀ (post : List (String × Color)) (pal pal2 : Palette),
      (∀ kv ∈ post, kv.1.data ≠ "Inactive".data ++ ':' :: role) →
      paletteApply pal post = .ok pal2 →
      getColor pal "Active".data role = getColor pal "Inactive".data role →
      getColor pal2 "Active".data role = getColor pal2 "Inactive".data role := by
  intro post
  induction post with
  | nil =>
    intro pal pal2 _ happ hinv
    have : pal = pal2 := by
      simpa [paletteApply] using happ
    exact this ▸ hinv
  | cons kv rest ih =>
    intro pal pal2 hkeys happ hinv
    obtain ⟨key, value⟩ := kv
    have hkey : key.data ≠ "Inactive".data ++ ':' :: role :=
      hkeys _ (List.mem_cons_self _ _)
    have hrest := fun kv hkv => hkeys kv (List.mem_cons_of_mem _ hkv)
    rcases hsp : splitOnColon key.data with _ | ⟨g, _ | ⟨r, _ | ⟨x, xs⟩⟩⟩
    · exact absurd hsp (splitOnColon_ne_nil _)
    · rw [paletteApply_cons_badsplit _ _ _ _ (by rw [hsp]; intro g2 r2; simp)] at happ
      simp at happ
    · by_cases hg : g ∈ knownColorGroups
      · by_cases hr : r ∈ knownColorRoles
        · rw [paletteApply_cons_known _ _ _ _ _ _ hsp hg hr] at happ
          refine ih _ _ hrest happ ?_
          by_cases hga : g = "Active".data
          · subst hga
            rw [if_pos rfl]
            by_cases hrr : r = role
            · subst hrr
              rw [getColor_setColor_of_ne _ _ _ _ _ _
                  (fun hc => absurd
                    (show "Inactive".data = "Active".data from congrArg Prod.fst hc)
                    (by decide)),
                getColor_setColor_same, getColor_setColor_same]
            · rw [getColor_setColor_of_ne _ _ _ _ _ _
                  (fun hc => hrr (congrArg Prod.snd hc)),
                getColor_setColor_of_ne _ _ _ _ _ _
                  (fun hc => hrr (congrArg Prod.snd hc)),
                getColor_setColor_of_ne _ _ _ _ _ _
                  (fun hc => hrr (congrArg Prod.snd hc)),
                getColor_setColor_of_ne _ _ _ _ _ _
                  (fun hc => absurd
                    (show "Active".data = "Inactive".data from congrArg Prod.fst hc)
                    (by decide))]
              exact hinv
          · rw [if_neg hga]
            have hnotinact : ¬(g = "Inactive".data ∧ r = role) := by
              rintro ⟨hgi, hri⟩
              exact hkey (by rw [splitOnColon_pair _ _ _ hsp, hgi, hri])
            rw [getColor_setColor_of_ne _ _ _ _ _ _
                (fun hc => hga (congrArg Prod.fst hc)),
              getColor_setColor_of_ne _ _ _ _ _ _
                (fun hc => hnotinact ⟨congrArg Prod.fst hc, congrArg Prod.snd hc⟩)]
            exact hinv
        · rw [paletteApply_cons_badrole _ _ _ _ _ _ hsp hg hr] at happ
          simp at happ
      · rw [paletteApply_cons_unknown _ _ _ _ _ _ hsp hg] at happ
        exact ih _ _ hrest happ hinv
    · rw [paletteApply_cons_badsplit _ _ _ _ (by rw [hsp]; intro g2 r2; simp)] at happ
      simp at happ

theorem lookupVal_restore_of_declared
    (defaults : String → Option (KeyType × SettingsValue)) (k : String)
    (hk : (defaults k).isSome) :
    ∀ st : Store, lookupVal (restore_defaults defaults st) k = none := by
  intro st
  induction st with
  | nil => rfl
  | cons kv rest ih =>
    obtain ⟨k2, v⟩ := kv
    show lookupVal (((k2, v) :: rest).filter fun kv => (defaults kv.1).isNone) k = none
    by_cases hkeep : (defaults k2).isNone
    · rw [List.filter_cons_of_pos (by simpa using hkeep)]
      have hne : k2 ≠ k := by
        intro h
        rw [h] at hkeep
        rw [Option.isSome_iff_ne_none] at hk
        exact hk (Option.isNone_iff_eq_none.mp hkeep)
      show lookupVal ((k2, v) :: restore_defaults defaults rest) k = none
      simpa [lookupVal, hne] using ih
    · rw [List.filter_cons_of_neg (by simpa using hkeep)]
      exact ih

theorem lookupVal_restore_of_undeclared
    (defaults : String → Option (KeyType × SettingsValue)) (k : String)
    (hk : defaults k = none) :
    ∀ st : Store, lookupVal (restore_defaults defaults st) k = lookupVal st k := by
  intro st
  induction st with
  | nil => rfl
  | cons kv rest ih =>
    obtain ⟨k2, v⟩ := kv
    show lookupVal (((k2, v) :: rest).filter fun kv => (defaults kv.1).isNone) k = _
    by_cases hkeep : (defaults k2).isNone
    · rw [List.filter_cons_of_pos (by simpa using hkeep)]
      show lookupVal ((k2, v) :: restore_defaults defaults rest) k = _
      by_cases hk2 : k2 = k
      · simp [lookupVal, hk2]
      · simpa [lookupVal, hk2] using ih
    · rw [List.filter_cons_of_neg (by simpa using hkeep)]
      have hk2 : k2 ≠ k := by
        intro h
        rw [h, hk] at hkeep
        simp at hkeep
      simpa [lookupVal, hk2] using ih

end BeeRef

/-- C3: after every sequence of `update_recent_files` operations starting
from the empty list, the recent-files list has length at most 10, is
deduplicated by exact path equality, and is ordered most-recently-used
first: it equals the reversed update sequence deduplicated keeping first
(i.e. most recent) occurrences, truncated to 10. -/
theorem BeeRef.recent_files_invariant (ps : List String) :
    (BeeRef.replayRecent ps).length ≤ 10 ∧ (BeeRef.replayRecent ps).Nodup ∧
      BeeRef.replayRecent ps
        = (BeeRef.dedupKeepFirst ps.reverse).take 10 := by
  have heq := BeeRef.replayRecent_eq ps
  refine ⟨?_, ?_, heq⟩ <;> rw [heq]
  · rw [List.length_take]
    exact Nat.min_le_left _ _
  · exact (BeeRef.dedupKeepFirst_nodup _).sublist (List.take_sublist _ _)

/-- C2: `update_recent_files` removes any existing occurrence of the
path, prepends it and truncates to 10 entries; replaying the 15 paths
`0.bee` .. `14.bee` leaves exactly the 10 paths `14.bee` down to
`5.bee`; and re-updating a path already present in a well-formed list
moves it to the front without growing the list. -/
theorem BeeRef.update_recent_files_spec (l : List String) (p : String)
    (hmem : p ∈ l) (hnd : l.Nodup) (hlen : l.length ≤ 10) :
    (∀ (l2 : List String) (p2 : String),
        BeeRef.update_recent_files l2 p2
          = (p2 :: l2.filter (fun q => q ≠ p2)).take 10) ∧
    BeeRef.replayRecent ["0.bee", "1.bee", "2.bee", "3.bee", "4.bee", "5.bee",
        "6.bee", "7.bee", "8.bee", "9.bee", "10.bee", "11.bee", "12.bee",
        "13.bee", "14.bee"]
      = ["14.bee", "13.bee", "12.bee", "11.bee", "10.bee", "9.bee", "8.bee",
        "7.bee", "6.bee", "5.bee"] ∧
    BeeRef.update_recent_files l p = p :: l.filter (fun q => q ≠ p) ∧
    (BeeRef.update_recent_files l p).length = l.length := by
  have hef : l.erase p = l.filter (fun q => q ≠ p) := by
    simpa using hnd.erase_eq_filter p
  have hlen2 : (p :: l.filter (fun q => q ≠ p)).length = l.length := by
    rw [← hef]
    exact ((List.perm_cons_erase hmem).length_eq).symm
  have hupd : BeeRef.update_recent_files l p = p :: l.filter (fun q => q ≠ p) := by
    show (p :: l.filter (fun q => q ≠ p)).take 10 = _
    exact List.take_of_length_le (hlen2 ▸ hlen)
  refine ⟨fun l2 p2 => rfl, by decide, hupd, ?_⟩
  rw [hupd, hlen2]

/-- Witness for C2 at a concrete list and path. -/
theorem BeeRef.update_recent_files_spec_witness :
    BeeRef.update_recent_files ["a.bee", "b.bee"] "b.bee"
      = "b.bee" :: ["a.bee", "b.bee"].filter (fun q => q ≠ "b.bee") :=
  (BeeRef.update_recent_files_spec ["a.bee", "b.bee"] "b.bee"
    (by decide) (by decide) (by decide)).2.2.1

/-- C1: for a settings key with a statically declared default,
`valueOrDefault` returns the stored value cast to the declared type when
an override is present and the cast succeeds, and the static default
when no override is present or the cast fails; in particular the
non-enumerated string `foo` for `Items/image_storage_format` and the
non-numeric string `foo` for the integer key `Items/arrange_gap` both
yield the default. -/
theorem BeeRef.valueOrDefault_spec
    (defaults : String → Option (BeeRef.KeyType × BeeRef.SettingsValue))
    (st : BeeRef.Store) (k : String) (t : BeeRef.KeyType)
    (d : BeeRef.SettingsValue) (hdecl : defaults k = some (t, d)) :
    (∀ v c, BeeRef.lookupVal st k = some v → BeeRef.castValue t v = some c →
      BeeRef.valueOrDefault defaults st k = some c) ∧
    (BeeRef.lookupVal st k = none →
      BeeRef.valueOrDefault defaults st k = some d) ∧
    (∀ v, BeeRef.lookupVal st k = some v → BeeRef.castValue t v = none →
      BeeRef.valueOrDefault defaults st k = some d) ∧
    BeeRef.valueOrDefault BeeRef.beerefDefaults
      (BeeRef.setValue [] "Items/image_storage_format" (.str "foo"))
      "Items/image_storage_format" = some (.str "best") ∧
    BeeRef.valueOrDefault BeeRef.beerefDefaults
      (BeeRef.setValue [] "Items/arrange_gap" (.str "foo"))
      "Items/arrange_gap" = some (.int 0) := by
  refine ⟨?_, ?_, ?_, by decide, by decide⟩
  · intro v c hv hc
    simp [BeeRef.valueOrDefault, hdecl, hv, hc]
  · intro hv
    simp [BeeRef.valueOrDefault, hdecl, hv]
  · intro v hv hc
    simp [BeeRef.valueOrDefault, hdecl, hv, hc]

/-- Witness for C1: the stored string `5` for the integer key
`Items/arrange_gap` is cast to the integer 5. -/
theorem BeeRef.valueOrDefault_spec_witness :
    BeeRef.valueOrDefault BeeRef.beerefDefaults
      [("Items/arrange_gap", BeeRef.SettingsValue.str "5")] "Items/arrange_gap"
      = some (BeeRef.SettingsValue.int 5) :=
  (BeeRef.valueOrDefault_spec BeeRef.beerefDefaults
      [("Items/arrange_gap", BeeRef.SettingsValue.str "5")] "Items/arrange_gap"
      BeeRef.KeyType.intType (BeeRef.SettingsValue.int 0) (by decide)).1
    (BeeRef.SettingsValue.str "5") (BeeRef.SettingsValue.int 5)
    (by decide) (by decide)

/-- C8: `restore_defaults` removes exactly the stored values of keys in
the declared-default namespace: a declared key no longer has a stored
value afterwards, while an undeclared key keeps its stored value. -/
theorem BeeRef.restore_defaults_spec
    (defaults : String → Option (BeeRef.KeyType × BeeRef.SettingsValue))
    (st : BeeRef.Store) (k : String) :
    ((defaults k).isSome →
      BeeRef.containsKey (BeeRef.restore_defaults defaults st) k = false) ∧
    (defaults k = none →
      BeeRef.lookupVal (BeeRef.restore_defaults defaults st) k
        = BeeRef.lookupVal st k) := by
  constructor
  · intro hk
    simp [BeeRef.containsKey,
      BeeRef.lookupVal_restore_of_declared defaults k hk st]
  · intro hk
    exact BeeRef.lookupVal_restore_of_undeclared defaults k hk st

/-- Witness for C8: restoring defaults on a store holding an override
for `Items/image_storage_format` and a foreign key `foo/bar` clears the
former and keeps the latter. -/
theorem BeeRef.restore_defaults_spec_witness :
    BeeRef.containsKey (BeeRef.restore_defaults BeeRef.beerefDefaults
      [("Items/image_storage_format", BeeRef.SettingsValue.str "png"),
        ("foo/bar", BeeRef.SettingsValue.str "baz")])
      "Items/image_storage_format" = false ∧
    BeeRef.lookupVal (BeeRef.restore_defaults BeeRef.beerefDefaults
      [("Items/image_storage_format", BeeRef.SettingsValue.str "png"),
        ("foo/bar", BeeRef.SettingsValue.str "baz")]) "foo/bar"
      = some (BeeRef.SettingsValue.str "baz") :=
  ⟨(BeeRef.restore_defaults_spec BeeRef.beerefDefaults
      [("Items/image_storage_format", BeeRef.SettingsValue.str "png"),
        ("foo/bar", BeeRef.SettingsValue.str "baz")]
      "Items/image_storage_format").1 (by decide),
    ((BeeRef.restore_defaults_spec BeeRef.beerefDefaults
      [("Items/image_storage_format", BeeRef.SettingsValue.str "png"),
        ("foo/bar", BeeRef.SettingsValue.str "baz")]
      "foo/bar").2 (by decide)).trans (by decide)⟩

/-- C5: `get_recent_files` with `existing_only` returns exactly the
stored entries whose file exists on disk, in stored order (a sublist of
the stored list); without the flag it returns all stored entries. -/
theorem BeeRef.get_recent_files_spec (stored : List String)
    (existsOnDisk : String → Bool) :
    BeeRef.get_recent_files stored existsOnDisk true
        = stored.filter existsOnDisk ∧
    BeeRef.get_recent_files stored existsOnDisk false = stored ∧
    (∀ f, f ∈ BeeRef.get_recent_files stored existsOnDisk true ↔
      f ∈ stored ∧ existsOnDisk f = true) ∧
    (BeeRef.get_recent_files stored existsOnDisk true).Sublist stored := by
  refine ⟨rfl, rfl, ?_, ?_⟩
  · intro f
    simp [BeeRef.get_recent_files, List.mem_filter]
  · exact List.filter_sublist stored

/-- Counterexample for C4 as stated: the key `Foo` does not name a known
color group, yet `create_palette_from_dict` does not silently ignore it:
Python's two-name unpacking of `key.split(':')` raises `ValueError`. -/
theorem create_palette_nocolon_raises :
    BeeRef.create_palette_from_dict [("Foo", (0, 0, 0))]
      = Except.error BeeRef.PyError.valueError := rfl

/-- C4 (amended): for every config dictionary in which each key splits
on `:` into exactly a group and a role, and each entry with a known
color group uses a known color role, the entries whose group is not a
known color group are silently ignored: the function raises no error and
returns exactly the palette built from the remaining entries. -/
theorem create_palette_unknown_groups_ignored
    (conf : List (String × BeeRef.Color))
    (h : ∀ kv ∈ conf, BeeRef.entryWellFormed kv = true) :
    ∃ pal, BeeRef.create_palette_from_dict conf = .ok pal ∧
      BeeRef.create_palette_from_dict (conf.filter BeeRef.entryKnownGroup)
        = .ok pal :=
  BeeRef.paletteApply_filter conf [] h

/-- Witness for C4 (amended): a dictionary with an unknown group
`Foo` and a well-formed `Active` entry. -/
theorem create_palette_unknown_groups_ignored_witness :
    ∃ pal, BeeRef.create_palette_from_dict
        [("Foo:WindowText", (1, 2, 3)), ("Active:Base", (4, 5, 6))] = .ok pal ∧
      BeeRef.create_palette_from_dict
        ([("Foo:WindowText", (1, 2, 3)),
          ("Active:Base", (4, 5, 6))].filter BeeRef.entryKnownGroup)
        = .ok pal :=
  create_palette_unknown_groups_ignored
    [("Foo:WindowText", (1, 2, 3)), ("Active:Base", (4, 5, 6))] (by decide)

/-- C9: an entry whose key names the `Active` color group sets the same
color for the same role in the `Inactive` color group as well: if no
later entry addresses `Inactive` for that role, the resulting palette
assigns equal `Active` and `Inactive` colors to it. -/
theorem create_palette_active_sets_inactive
    (conf pre post : List (String × BeeRef.Color)) (key : String)
    (value : BeeRef.Color) (role : List Char) (pal : BeeRef.Palette)
    (hconf : conf = pre ++ (key, value) :: post)
    (hkey : key.data = "Active".data ++ ':' :: role)
    (hrole : ':' ∉ role)
    (hpost : ∀ kv ∈ post, kv.1.data ≠ "Inactive".data ++ ':' :: role)
    (hok : BeeRef.create_palette_from_dict conf = .ok pal) :
    BeeRef.getColor pal "Active".data role
      = BeeRef.getColor pal "Inactive".data role := by
  subst hconf
  obtain ⟨p1, h1, h2⟩ :=
    BeeRef.paletteApply_append pre ((key, value) :: post) [] pal hok
  have hsp : BeeRef.splitOnColon key.data = ["Active".data, role] := by
    rw [hkey, BeeRef.splitOnColon_append _ _ (by decide),
      BeeRef.splitOnColon_no_colon _ hrole]
  by_cases hr : role ∈ BeeRef.knownColorRoles
  · rw [BeeRef.paletteApply_cons_known _ _ _ _ _ _ hsp (by decide) hr,
      if_pos rfl] at h2
    refine BeeRef.paletteApply_active_inactive role post _ pal hpost h2 ?_
    rw [BeeRef.getColor_setColor_of_ne _ _ _ _ _ _
        (fun hc => absurd
          (show "Inactive".data = "Active".data from congrArg Prod.fst hc)
          (by decide)),
      BeeRef.getColor_setColor_same, BeeRef.getColor_setColor_same]
  · rw [BeeRef.paletteApply_cons_badrole _ _ _ _ _ _ hsp (by decide) hr] at h2
    simp at h2

/-- Witness for C9: a single `Active:WindowText` entry yields equal
`Active` and `Inactive` colors for `WindowText`. -/
theorem create_palette_active_sets_inactive_witness :
    BeeRef.getColor
        [(("Inactive".data, "WindowText".data), ((10, 20, 30) : BeeRef.Color)),
          (("Active".data, "WindowText".data), (10, 20, 30))]
        "Active".data "WindowText".data
      = BeeRef.getColor
        [(("Inactive".data, "WindowText".data), ((10, 20, 30) : BeeRef.Color)),
          (("Active".data, "WindowText".data), (10, 20, 30))]
        "Inactive".data "WindowText".data :=
  create_palette_active_sets_inactive
    [("Active:WindowText", (10, 20, 30))] [] [] "Active:WindowText"
    (10, 20, 30) "WindowText".data
    [(("Inactive".data, "WindowText".data), (10, 20, 30)),
      (("Active".data, "WindowText".data), (10, 20, 30))]
    rfl (by decide) (by decide) (by simp) rfl

theorem pyRound_dist (x : ℚ) : |(BeeRef.pyRound x : ℚ) - x| ≤ 1 / 2 := by
  have h1 : (⌊x⌋ : ℚ) ≤ x := Int.floor_le x
  have h2 : x < ⌊x⌋ + 1 := Int.lt_floor_add_one x
  rw [BeeRef.pyRound]
  split_ifs with ha hb hc
  · rw [abs_le]
    constructor <;> linarith
  · push_cast
    rw [abs_le]
    push_neg at ha
    constructor <;> linarith
  · rw [abs_le]
    push_neg at ha hb
    constructor <;> linarith
  · push_cast
    rw [abs_le]
    push_neg at ha hb
    constructor <;> linarith

theorem pyRound_nearest (x : ℚ) (k : ℤ) :
    |(BeeRef.pyRound x : ℚ) - x| ≤ |(k : ℚ) - x| := by
  by_cases hk : k = BeeRef.pyRound x
  · rw [hk]
  · have h1 : (1 : ℚ) ≤ |(k : ℚ) - (BeeRef.pyRound x : ℚ)| := by
      have h0 : (1 : ℤ) ≤ |k - BeeRef.pyRound x| :=
        Int.one_le_abs (sub_ne_zero.mpr hk)
      exact_mod_cast h0
    have h2 := pyRound_dist x
    have h3 : |(k : ℚ) - (BeeRef.pyRound x : ℚ)|
        ≤ |(k : ℚ) - x| + |x - (BeeRef.pyRound x : ℚ)| := abs_sub_le _ _ _
    have h4 : |x - (BeeRef.pyRound x : ℚ)| = |(BeeRef.pyRound x : ℚ) - x| :=
      abs_sub_comm _ _
    linarith

/-- C6: for every number and nonzero base, `round_to` returns
`base * round(number / base)`, and that value is a multiple of the base
nearest to the number: its distance to the number is at most the
distance of any integer multiple of the base. -/
theorem round_to_spec (number base : ℚ) (hbase : base ≠ 0) :
    BeeRef.round_to number base = base * BeeRef.pyRound (number / base) ∧
    ∀ k : ℤ, |BeeRef.round_to number base - number| ≤ |base * k - number| := by
  refine ⟨rfl, fun k => ?_⟩
  have h1 : BeeRef.round_to number base - number
      = base * ((BeeRef.pyRound (number / base) : ℚ) - number / base) := by
    rw [BeeRef.round_to, mul_sub, mul_div_cancel₀ _ hbase]
  have h2 : base * (k : ℚ) - number = base * ((k : ℚ) - number / base) := by
    rw [mul_sub, mul_div_cancel₀ _ hbase]
  rw [h1, h2, abs_mul, abs_mul]
  exact mul_le_mul_of_nonneg_left (pyRound_nearest _ k) (abs_nonneg base)

/-- Witness for C6 at number 3 and base 1. -/
theorem round_to_spec_witness :
    (1 : ℚ) ≠ 0 ∧
    BeeRef.round_to 3 1 = 1 * BeeRef.pyRound (3 / 1) ∧
    |BeeRef.round_to 3 1 - 3| ≤ |1 * ((3 : ℤ) : ℚ) - 3| :=
  ⟨one_ne_zero, (round_to_spec 3 1 one_ne_zero).1,
    (round_to_spec 3 1 one_ne_zero).2 3⟩

theorem natToHexFuel_ne_nil (fuel n : Nat) : BeeRef.natToHexFuel fuel n ≠ [] := by
  cases fuel with
  | zero => simp [BeeRef.natToHexFuel]
  | succ m =>
    rw [BeeRef.natToHexFuel]
    split
    · simp
    · simp

theorem qcolorName_length (c : BeeRef.QColor) :
    (BeeRef.qcolorName c).length = 7 := by
  simp [BeeRef.qcolorName, BeeRef.byteToHex]

theorem natToHexChars_small (n : Nat) (h : n < 16) :
    BeeRef.natToHexChars n = [BeeRef.hexDigitChar n] := by
  cases n with
  | zero => rfl
  | succ m =>
    rw [BeeRef.natToHexChars, BeeRef.natToHexFuel, if_pos h]

theorem natToHexChars_len_two (n : Nat) (h16 : 16 ≤ n) (h256 : n < 256) :
    (BeeRef.natToHexChars n).length = 2 := by
  obtain ⟨j, rfl⟩ : ∃ j, n = j + 16 := ⟨n - 16, by omega⟩
  rw [BeeRef.natToHexChars]
  show (BeeRef.natToHexFuel (j + 15 + 1) (j + 16)).length = 2
  rw [BeeRef.natToHexFuel, if_neg (by omega)]
  have hq : (j + 16) / 16 < 16 := by omega
  have hone : BeeRef.natToHexFuel (j + 15) ((j + 16) / 16)
      = [BeeRef.hexDigitChar ((j + 16) / 16)] := by
    show BeeRef.natToHexFuel (j + 14 + 1) ((j + 16) / 16) = _
    rw [BeeRef.natToHexFuel, if_pos hq]
  rw [hone]
  simp

/-- C10: `qcolor_to_hex` returns exactly the 7-character `#rrggbb` name
iff the alpha is 255; for alpha below 255 it returns the name followed
by the alpha in unpadded lowercase hex, giving 9 characters for alpha
between 16 and 254 and 8 characters for alpha below 16. -/
theorem qcolor_to_hex_spec (c : BeeRef.QColor) :
    (BeeRef.qcolor_to_hex c = BeeRef.qcolorName c ↔ c.a = 255) ∧
    (BeeRef.qcolorName c).length = 7 ∧
    (c.a ≠ 255 →
      BeeRef.qcolor_to_hex c
        = BeeRef.qcolorName c ++ BeeRef.natToHexChars c.a) ∧
    (16 ≤ c.a → c.a ≤ 254 → (BeeRef.qcolor_to_hex c).length = 9) ∧
    (c.a < 16 → (BeeRef.qcolor_to_hex c).length = 8) := by
  by_cases ha : c.a = 255
  · have heq : BeeRef.qcolor_to_hex c = BeeRef.qcolorName c := by
      rw [BeeRef.qcolor_to_hex, if_pos ha]
    exact ⟨⟨fun _ => ha, fun _ => heq⟩, qcolorName_length c,
      fun h => absurd ha h, fun h1 h2 => by omega, fun h => by omega⟩
  · have hne : BeeRef.qcolor_to_hex c
        = BeeRef.qcolorName c ++ BeeRef.natToHexChars c.a := by
      rw [BeeRef.qcolor_to_hex, if_neg ha]
    refine ⟨⟨fun heq => ?_, fun h => absurd h ha⟩, qcolorName_length c,
      fun _ => hne, fun h1 h2 => ?_, fun h => ?_⟩
    · rw [hne] at heq
      have hlen := congrArg List.length heq
      rw [List.length_append] at hlen
      have hzero : (BeeRef.natToHexChars c.a).length = 0 := by omega
      exact absurd (List.length_eq_zero.mp hzero) (natToHexFuel_ne_nil c.a c.a)
    · rw [hne, List.length_append, qcolorName_length,
        natToHexChars_len_two c.a h1 (by omega)]
    · rw [hne, List.length_append, qcolorName_length,
        natToHexChars_small c.a h]
      rfl

/-- Witness for C10 at the color `(255, 0, 16)` with alpha 128. -/
theorem qcolor_to_hex_spec_witness :
    BeeRef.qcolor_to_hex ⟨255, 0, 16, 128⟩
      = BeeRef.qcolorName ⟨255, 0, 16, 128⟩ ++ BeeRef.natToHexChars 128 ∧
    (BeeRef.qcolor_to_hex ⟨255, 0, 16, 128⟩).length = 9 :=
  ⟨(qcolor_to_hex_spec ⟨255, 0, 16, 128⟩).2.2.1 (by decide),
    (qcolor_to_hex_spec ⟨255, 0, 16, 128⟩).2.2.2.1 (by decide) (by decide)⟩

theorem splitAtParenSpace_append (ys : List Char) :
    ∀ xs : List Char, '(' ∉ xs →
      BeeRef.splitAtParenSpace (xs ++ '(' :: ' ' :: ys) = some (xs, ys) := by
  intro xs
  induction xs with
  | nil =>
    intro _
    rw [List.nil_append, BeeRef.splitAtParenSpace, if_pos (by simp)]
    rfl
  | cons c xs ih =>
    intro hmem
    have hc : c ≠ '(' := fun h => hmem (h ▸ List.mem_cons_self _ _)
    have hxs : '(' ∉ xs := fun h => hmem (List.mem_cons_of_mem _ h)
    rw [List.cons_append, BeeRef.splitAtParenSpace, if_neg (fun h => hc h.1),
      ih hxs]
    rfl

theorem regexExtractGroup_format (name exts : List Char) (hparen : '(' ∉ exts) :
    BeeRef.regexExtractGroup (name ++ ' ' :: '(' :: exts ++ [')'])
      = some exts := by
  rw [BeeRef.regexExtractGroup]
  have hrev : (name ++ ' ' :: '(' :: exts ++ [')']).reverse
      = ')' :: (exts.reverse ++ '(' :: ' ' :: name.reverse) := by
    simp
  rw [hrev]
  have hdrop : (')' :: (exts.reverse ++ '(' :: ' ' :: name.reverse)).dropWhile
      (fun c => c ≠ ')') = ')' :: (exts.reverse ++ '(' :: ' ' :: name.reverse) := by
    rw [List.dropWhile_cons]
    simp
  rw [hdrop]
  show Option.map (fun p => p.1.reverse)
      (BeeRef.splitAtParenSpace (exts.reverse ++ '(' :: ' ' :: name.reverse))
    = some exts
  rw [splitAtParenSpace_append name.reverse exts.reverse (by simp [hparen])]
  simp

/-- C7: on a Qt file-dialog format string of the form
`NAME (*.ext1 *.ext2 ...)` — a name, then a parenthesised, nonempty,
whitespace-separated extension list (without parentheses or newlines in
the extension part) — `get_file_extension_from_format` returns the
first extension with its `*.` prefix removed. -/
theorem get_file_extension_spec (name exts ext1 : List Char)
    (toks : List (List Char))
    (_hnl1 : '\n' ∉ name) (_hnl2 : '\n' ∉ exts)
    (hp1 : '(' ∉ exts)
    (hsplit : BeeRef.pySplitWs exts = ('*' :: '.' :: ext1) :: toks) :
    BeeRef.get_file_extension_from_format
        (String.mk (name ++ ' ' :: '(' :: exts ++ [')']))
      = some (String.mk ext1) := by
  rw [BeeRef.get_file_extension_from_format]
  have hdata : (String.mk (name ++ ' ' :: '(' :: exts ++ [')'])).data
      = name ++ ' ' :: '(' :: exts ++ [')'] := rfl
  rw [hdata, regexExtractGroup_format name exts hp1]
  show (match BeeRef.pySplitWs exts with
    | [] => none
    | ext :: _ => some (String.mk (BeeRef.stripStarDot ext)))
    = some (String.mk ext1)
  rw [hsplit]
  rfl

/-- Witness for C7 on the docstring's example `JPEG (*.jpg *.jpeg)`. -/
theorem get_file_extension_spec_witness :
    BeeRef.get_file_extension_from_format
        (String.mk ("JPEG".data ++ ' ' :: '(' :: "*.jpg *.jpeg".data ++ [')']))
      = some (String.mk "jpg".data) :=
  get_file_extension_spec "JPEG".data "*.jpg *.jpeg".data "jpg".data
    ["*.jpeg".data] (by decide) (by decide) (by decide) (by decide)
